import Mathlib

/-!
Shallow embedding of the buffer-filling core of `FileSource.cpp`
(`FileSource::open`, `FileSource::decompressNextBlock`,
`FileSource::fillTupleBuffer`) from the nebulastream repository.

Bytes are modelled as `Nat`, the underlying file stream as the list of its
remaining bytes (an `ifstream::read` of `n` bytes takes `min n remaining`
bytes and a zero-byte read corresponds to the exhausted stream), and the
ZSTD streaming codec as an abstract step function (its source is an external
library; its interface contract is: given internal state, the not yet
consumed part of the input chunk and the free space of the output buffer it
returns new internal state, the number of input bytes consumed and the bytes
emitted, where consumed is at most the remaining input and the emission is
truncated to the available space, as the `ZSTD_inBuffer`/`ZSTD_outBuffer`
API guarantees `pos <= size`).
-/

namespace FileSourceModel

/-- Result of one `FileSource::fillTupleBuffer` call: `Source::FillTupleBufferResult`
is either `eos()` or `withBytes(n)`; the model carries the bytes written into the
destination buffer, so `n` is the length of the carried list. -/
inductive FillResult where
  | eos : FillResult
  | bytes (data : List Nat) : FillResult
deriving DecidableEq

/-- Abstract interface of one `ZSTD_decompressStream` call: internal codec state,
remaining input chunk and available output space go in; new codec state, number of
consumed input bytes and emitted output bytes come out. -/
abbrev CodecStep (σ : Type) := σ → List Nat → Nat → σ × Nat × List Nat

/-- State of a `FileSource` in uncompressed mode: the remaining bytes of the open
input file and the `totalNumBytesRead` counter. -/
structure UState where
  stream : List Nat
  totalNumBytesRead : Nat
deriving DecidableEq

/-- State of a `FileSource` in zstd mode: remaining file bytes, the sizes of
`compressedBuffer` and `decompressedBuffer` (`ZSTD_DStreamInSize()` and
`ZSTD_DStreamOutSize()` in the code), the valid decompressed bytes
(`decompressedBuffer[0..decompressedSize)`), the two cursors, the
`endOfCompressedStream` flag, the codec context and the byte counter. -/
structure ZState (σ : Type) where
  stream : List Nat
  compressedCapacity : Nat
  decompressedCapacity : Nat
  decompressedBuffer : List Nat
  decompressedOffset : Nat
  decompressedSize : Nat
  endOfCompressedStream : Bool
  codec : σ
  totalNumBytesRead : Nat
deriving DecidableEq

/-- The inner `while (input.pos < input.size)` loop of
`FileSource::decompressNextBlock`: repeatedly hand the codec the not yet consumed
input and the output region `decompressedBuffer.data() + decompressedSize` of size
`decompressedBuffer.size() - decompressedSize`; after each call add `output.pos`
to `decompressedSize` and stop early once `decompressedSize >= decompressedBuffer.size()`
(remaining input bytes of this chunk are discarded). The fuel argument only rules
out the (unreachable for the real codec) infinite loop in which a call neither
consumes input nor emits output. -/
def decodeLoop (step : CodecStep σ) :
    Nat → σ → List Nat → Nat → Nat → List Nat → σ × Nat × List Nat
  | 0, cs, _, _, size, out => (cs, size, out)
  | _ + 1, cs, [], _, size, out => (cs, size, out)
  | fuel + 1, cs, a :: rest, cap, size, out =>
    let space := cap - size
    let r := step cs (a :: rest) space
    let consumed := min r.2.1 (a :: rest).length
    let emitted := r.2.2.take space
    let size' := size + emitted.length
    if cap ≤ size' then (r.1, size', out ++ emitted)
    else decodeLoop step fuel r.1 ((a :: rest).drop consumed) cap size' (out ++ emitted)

/-- `FileSource::decompressNextBlock`: if `endOfCompressedStream` return `false`
immediately; read one chunk of up to `compressedBuffer.size()` bytes from the file;
a zero-byte read sets `endOfCompressedStream` and returns `false`; otherwise reset
`decompressedSize` to `0`, run the decode loop, reset `decompressedOffset` to `0`
and report whether `decompressedSize > 0`. -/
def decompressNextBlock (step : CodecStep σ) (s : ZState σ) : Bool × ZState σ :=
  if s.endOfCompressedStream then (false, s)
  else
    let chunk := s.stream.take s.compressedCapacity
    if chunk.length = 0 then (false, { s with endOfCompressedStream := true })
    else
      let r := decodeLoop step (chunk.length + s.decompressedCapacity + 1)
        s.codec chunk s.decompressedCapacity 0 []
      (decide (0 < r.2.1),
        { s with
          stream := s.stream.drop s.compressedCapacity,
          codec := r.1,
          decompressedBuffer := r.2.2,
          decompressedSize := r.2.1,
          decompressedOffset := 0 })

/-- The `while (totalBytesWritten < bufferSize)` loop of the zstd branch of
`FileSource::fillTupleBuffer`: copy `min(decompressedSize - decompressedOffset,
bufferSize - totalBytesWritten)` leftover bytes when available, otherwise call
`decompressNextBlock` and break when it reports no data. Each iteration of the
C++ loop consumes one unit of fuel; `2 * bufferSize + 2` units (supplied by
`fillTupleBufferZstd`) are enough for any run because every copy step makes
strict progress and every successful decode is followed by a copy step. -/
def fillLoop (step : CodecStep σ) (bufferSize : Nat) :
    Nat → ZState σ → Nat → List Nat → ZState σ × Nat × List Nat
  | 0, s, total, acc => (s, total, acc)
  | fuel + 1, s, total, acc =>
    if total < bufferSize then
      if s.decompressedOffset < s.decompressedSize then
        let bytesToCopy := min (s.decompressedSize - s.decompressedOffset) (bufferSize - total)
        let copied := (s.decompressedBuffer.drop s.decompressedOffset).take bytesToCopy
        fillLoop step bufferSize fuel
          { s with decompressedOffset := s.decompressedOffset + bytesToCopy }
          (total + bytesToCopy) (acc ++ copied)
      else
        match decompressNextBlock step s with
        | (true, s') => fillLoop step bufferSize fuel s' total acc
        | (false, s') => (s', total, acc)
    else (s, total, acc)

/-- Zstd branch of `FileSource::fillTupleBuffer`: run the fill loop, add the
bytes written to `totalNumBytesRead`, and return `eos()` exactly when zero bytes
were written. -/
def fillTupleBufferZstd (step : CodecStep σ) (s : ZState σ) (bufferSize : Nat) :
    FillResult × ZState σ :=
  let r := fillLoop step bufferSize (2 * bufferSize + 2) s 0 []
  let s' := { r.1 with totalNumBytesRead := r.1.totalNumBytesRead + r.2.1 }
  if r.2.1 = 0 then (FillResult.eos, s') else (FillResult.bytes r.2.2, s')

/-- Uncompressed branch of `FileSource::fillTupleBuffer`: one `inputFile.read` of
up to `tupleBuffer.getBufferSize()` bytes, add `gcount()` to `totalNumBytesRead`,
return `eos()` exactly when zero bytes were read. -/
def fillTupleBufferUncompressed (s : UState) (bufferSize : Nat) : FillResult × UState :=
  let data := s.stream.take bufferSize
  let numBytesRead := data.length
  let s' : UState := ⟨s.stream.drop bufferSize, s.totalNumBytesRead + numBytesRead⟩
  if numBytesRead = 0 then (FillResult.eos, s') else (FillResult.bytes data, s')

/-- Error raised by `FileSource::open`. The code throws `InvalidConfigParameter`
on every failure path of `open`; the `ioError` constructor is modelled from the
spec's error taxonomy (an I/O error class distinct from configuration errors) so
that the classification of the errors actually thrown can be stated. -/
inductive SrcError where
  | invalidConfigParameter (msg : String)
  | ioError (msg : String)
deriving DecidableEq

/-- Whether an error belongs to the spec's I/O error class. -/
def SrcError.isIOError : SrcError → Bool
  | SrcError.ioError _ => true
  | _ => false

/-- Observable state of a `FileSource` right after `FileSource::open` returned or
threw: whether the member `inputFile` stream is open, whether the zstd context and
staging state were initialized, and the initial cursor/flag values. -/
structure OpenState where
  streamOpen : Bool
  zstdInitialized : Bool
  decompressedOffset : Nat
  decompressedSize : Nat
  endOfCompressedStream : Bool
deriving DecidableEq

/-- `FileSource::open`: resolve the path with `realpath` and open an `ifstream`
on it (`fileContent = none` models the case where resolution or the stream open
fails; then the function throws `InvalidConfigParameter` carrying the `errno`
text). With the stream open, `compressionType = "zstd"` allocates the codec
context (`ctxOk = false` models `ZSTD_createDCtx` returning null) and initializes
the staging state; any other value except `"none"` and the empty string throws
`InvalidConfigParameter` naming it. The member `inputFile` opened before the
compression check stays open on those later throws. -/
def openFileSource (filePath compressionType : String) (fileContent : Option (List Nat))
    (ctxOk : Bool) (errnoMsg : String) : Option SrcError × OpenState :=
  match fileContent with
  | none =>
    (some (SrcError.invalidConfigParameter
        ("Could not determine absolute pathname: " ++ filePath ++ " - " ++ errnoMsg)),
      ⟨false, false, 0, 0, false⟩)
  | some _ =>
    if compressionType = "zstd" then
      if ctxOk then (none, ⟨true, true, 0, 0, false⟩)
      else (some (SrcError.invalidConfigParameter "Failed to create ZSTD decompression context"),
        ⟨true, false, 0, 0, false⟩)
    else if compressionType ≠ "none" ∧ compressionType ≠ "" then
      (some (SrcError.invalidConfigParameter ("Unsupported compression type: " ++ compressionType)),
        ⟨true, false, 0, 0, false⟩)
    else (none, ⟨true, false, 0, 0, false⟩)

/-- Zstd-mode state produced by a successful `FileSource::open` on a file with the
given content: empty staging, both cursors `0`, `endOfCompressedStream = false`,
byte counter `0`. -/
def openZstd (content : List Nat) (inCapacity outCapacity : Nat) (c0 : σ) : ZState σ :=
  { stream := content, compressedCapacity := inCapacity,
    decompressedCapacity := outCapacity, decompressedBuffer := [],
    decompressedOffset := 0, decompressedSize := 0,
    endOfCompressedStream := false, codec := c0, totalNumBytesRead := 0 }

/-- Drive `fillTupleBufferUncompressed` repeatedly (the execution engine's pull
loop) with fixed capacity, recording the results; stops after the first
`EndOfStream` or when the fuel runs out. -/
def runU (bufferSize : Nat) : Nat → UState → List FillResult × UState
  | 0, s => ([], s)
  | fuel + 1, s =>
    match fillTupleBufferUncompressed s bufferSize with
    | (FillResult.eos, s') => ([FillResult.eos], s')
    | (FillResult.bytes d, s') =>
      let r := runU bufferSize fuel s'
      (FillResult.bytes d :: r.1, r.2)

/-- Drive `fillTupleBufferZstd` repeatedly with fixed capacity, recording the
results; stops after the first `EndOfStream` or when the fuel runs out. -/
def runZ (step : CodecStep σ) (bufferSize : Nat) : Nat → ZState σ → List FillResult × ZState σ
  | 0, s => ([], s)
  | fuel + 1, s =>
    match fillTupleBufferZstd step s bufferSize with
    | (FillResult.eos, s') => ([FillResult.eos], s')
    | (FillResult.bytes d, s') =>
      let r := runZ step bufferSize fuel s'
      (FillResult.bytes d :: r.1, r.2)

/-- Concatenation of the payloads of the non-`EndOfStream` results, in order. -/
def extractBytes : List FillResult → List Nat
  | [] => []
  | FillResult.eos :: rest => extractBytes rest
  | FillResult.bytes d :: rest => d ++ extractBytes rest

/-- Structural well-formedness of a zstd state reachable from `openZstd`: the
model stores exactly the valid region `decompressedBuffer[0..decompressedSize)`. -/
def ZWF (s : ZState σ) : Prop := s.decompressedBuffer.length = s.decompressedSize

/-- The cursor invariant of the Decompression State:
`decompressedOffset ≤ decompressedSize ≤ decompressedCapacity`. -/
def ZInv (s : ZState σ) : Prop :=
  s.decompressedOffset ≤ s.decompressedSize ∧ s.decompressedSize ≤ s.decompressedCapacity

/-- A codec step is productive when it emits at least one byte whenever it is
given a nonempty input and at least one byte of output space. -/
def Productive (step : CodecStep σ) : Prop :=
  ∀ cs input space, input ≠ [] → 1 ≤ space → (step cs input space).2.2 ≠ []

/-- The ASCII bytes of the 10-byte file content used in the spec's concrete
scenario, `"HelloWorld"`. -/
def helloWorldBytes : List Nat := [72, 101, 108, 108, 111, 87, 111, 114, 108, 100]

/-- A stateless codec that consumes its whole input and emits it unchanged
(a productive instance of the codec interface). -/
def idCodec : CodecStep Unit := fun _ input _ => ((), input.length, input)

/-- A stateless codec that consumes its whole input and emits nothing — the
behavior of `ZSTD_decompressStream` on a chunk that contributes no output
(for example a skippable frame, or a chunk buffered inside the codec). -/
def skipCodec : CodecStep Unit := fun _ input _ => ((), input.length, [])

/-- A stateless codec that consumes one byte at a time and emits it back unless
the byte is `0`: chunks consisting of `0` decode to zero output bytes while
later chunks still produce data. -/
def flagCodec : CodecStep Unit :=
  fun _ input _ => ((), 1, match input with
    | [] => []
    | b :: _ => if b = 0 then [] else [b])

/-! Helper lemmas about the decode loop. -/

theorem decodeLoop_size_mono (step : CodecStep σ) :
    ∀ (fuel : Nat) (cs : σ) (input : List Nat) (cap size : Nat) (out : List Nat),
      size ≤ (decodeLoop step fuel cs input cap size out).2.1 := by
  intro fuel
  induction fuel with
  | zero => intro cs input cap size out; simp [decodeLoop]
  | succ n ih =>
    intro cs input cap size out
    cases input with
    | nil => simp [decodeLoop]
    | cons a rest =>
      simp only [decodeLoop]
      split
      · simp
      · exact le_trans (Nat.le_add_right _ _) (ih ..)

theorem decodeLoop_size_le_cap (step : CodecStep σ) :
    ∀ (fuel : Nat) (cs : σ) (input : List Nat) (cap size : Nat) (out : List Nat),
      size ≤ cap → (decodeLoop step fuel cs input cap size out).2.1 ≤ cap := by
  intro fuel
  induction fuel with
  | zero => intro cs input cap size out h; simpa [decodeLoop] using h
  | succ n ih =>
    intro cs input cap size out h
    cases input with
    | nil => simpa [decodeLoop] using h
    | cons a rest =>
      have hlen : ((step cs (a :: rest) (cap - size)).2.2.take (cap - size)).length ≤ cap - size :=
        le_trans (List.length_take_le _ _) (le_refl _)
      simp only [decodeLoop]
      split
      · simp only
        omega
      · exact ih _ _ _ _ _ (by omega)

theorem decodeLoop_out_length (step : CodecStep σ) :
    ∀ (fuel : Nat) (cs : σ) (input : List Nat) (cap size : Nat) (out : List Nat),
      out.length = size → (decodeLoop step fuel cs input cap size out).2.2.length =
        (decodeLoop step fuel cs input cap size out).2.1 := by
  intro fuel
  induction fuel with
  | zero => intro cs input cap size out h; simpa [decodeLoop] using h
  | succ n ih =>
    intro cs input cap size out h
    cases input with
    | nil => simpa [decodeLoop] using h
    | cons a rest =>
      simp only [decodeLoop]
      split
      · simp [h]
      · exact ih _ _ _ _ _ (by simp [h])

theorem decodeLoop_pos (step : CodecStep σ) (hp : Productive step) :
    ∀ (fuel : Nat) (cs : σ) (a : Nat) (rest : List Nat) (cap size : Nat) (out : List Nat),
      size < cap → 0 < (decodeLoop step (fuel + 1) cs (a :: rest) cap size out).2.1 := by
  intro fuel cs a rest cap size out h
  have hne : (step cs (a :: rest) (cap - size)).2.2 ≠ [] :=
    hp cs (a :: rest) (cap - size) (by simp) (by omega)
  have hpos : 0 < ((step cs (a :: rest) (cap - size)).2.2.take (cap - size)).length := by
    rw [List.length_take]
    have := List.length_pos.mpr hne
    omega
  simp only [decodeLoop]
  split
  · simp only
    omega
  · exact lt_of_lt_of_le (by omega) (decodeLoop_size_mono step ..)

/-! Helper lemmas about `decompressNextBlock`. -/

theorem decompressNextBlock_exhausted (step : CodecStep σ) (s : ZState σ)
    (h : s.endOfCompressedStream = true) : decompressNextBlock step s = (false, s) := by
  simp [decompressNextBlock, h]

theorem decompressNextBlock_zero_read (step : CodecStep σ) (s : ZState σ)
    (h : s.endOfCompressedStream = false) (h2 : s.stream.take s.compressedCapacity = []) :
    decompressNextBlock step s = (false, { s with endOfCompressedStream := true }) := by
  simp [decompressNextBlock, h, h2]

theorem decompressNextBlock_const (step : CodecStep σ) (s : ZState σ) :
    (decompressNextBlock step s).2.decompressedCapacity = s.decompressedCapacity ∧
    (decompressNextBlock step s).2.compressedCapacity = s.compressedCapacity ∧
    (decompressNextBlock step s).2.totalNumBytesRead = s.totalNumBytesRead := by
  simp only [decompressNextBlock]
  split
  · simp
  · split <;> simp

theorem decompressNextBlock_true_cursor (step : CodecStep σ) (s s' : ZState σ)
    (h : decompressNextBlock step s = (true, s')) :
    s'.decompressedOffset = 0 ∧ 0 < s'.decompressedSize := by
  simp only [decompressNextBlock] at h
  split at h
  · simp at h
  · split at h
    · simp at h
    · rw [Prod.mk.injEq] at h
      obtain ⟨h1, h2⟩ := h
      subst h2
      simp only [decide_eq_true_eq] at h1
      exact ⟨rfl, h1⟩

theorem decompressNextBlock_false_cases (step : CodecStep σ) (s s' : ZState σ)
    (h : decompressNextBlock step s = (false, s')) :
    (s.endOfCompressedStream = true ∧ s' = s) ∨
    (s.endOfCompressedStream = false ∧ s.stream.take s.compressedCapacity = [] ∧
      s' = { s with endOfCompressedStream := true }) ∨
    (s.endOfCompressedStream = false ∧ s.stream.take s.compressedCapacity ≠ [] ∧
      s'.decompressedSize = 0 ∧ s'.decompressedOffset = 0 ∧
      s'.endOfCompressedStream = s.endOfCompressedStream) := by
  simp only [decompressNextBlock] at h
  split at h
  · rw [Prod.mk.injEq] at h
    exact Or.inl ⟨by assumption, h.2.symm⟩
  · rename_i hne
    split at h
    · rename_i hz
      rw [Prod.mk.injEq] at h
      refine Or.inr (Or.inl ⟨by simpa using hne, ?_, h.2.symm⟩)
      simpa [List.length_eq_zero] using hz
    · rename_i hz
      rw [Prod.mk.injEq] at h
      obtain ⟨h1, h2⟩ := h
      subst h2
      simp only [decide_eq_false_iff_not, Nat.not_lt, Nat.le_zero] at h1
      refine Or.inr (Or.inr ⟨by simpa using hne,
        by simpa [List.length_eq_zero] using hz, ?_, rfl, rfl⟩)
      simpa using h1

theorem decompressNextBlock_inv (step : CodecStep σ) (s : ZState σ) (h : ZInv s) :
    ZInv (decompressNextBlock step s).2 ∧
    (decompressNextBlock step s).2.decompressedSize ≤ s.decompressedCapacity := by
  simp only [decompressNextBlock]
  split
  · exact ⟨h, h.2⟩
  · split
    · exact ⟨h, h.2⟩
    · refine ⟨⟨by simp, ?_⟩, ?_⟩ <;>
        simpa [ZInv] using decodeLoop_size_le_cap step _ _ _ _ _ _ (Nat.zero_le _)

theorem decompressNextBlock_wf (step : CodecStep σ) (s : ZState σ) (h : ZWF s) :
    ZWF (decompressNextBlock step s).2 := by
  simp only [decompressNextBlock]
  split
  · exact h
  · split
    · exact h
    · simpa [ZWF] using decodeLoop_out_length step _ _ _ _ _ _ (by simp)

theorem decompressNextBlock_productive_true (step : CodecStep σ) (hp : Productive step)
    (s : ZState σ) (hcap : 1 ≤ s.decompressedCapacity)
    (h : s.endOfCompressedStream = false) (h2 : s.stream.take s.compressedCapacity ≠ []) :
    (decompressNextBlock step s).1 = true := by
  simp only [decompressNextBlock]
  rw [h]
  simp only [Bool.false_eq_true, if_false]
  rw [if_neg (by simpa [List.length_eq_zero] using h2)]
  simp only [decide_eq_true_eq]
  rcases hchunk : s.stream.take s.compressedCapacity with _ | ⟨a, rest⟩
  · exact absurd hchunk h2
  · refine decodeLoop_pos step hp _ _ _ _ _ _ _ ?_
    omega

/-! Helper lemmas about the fill loop. -/

theorem fillLoop_const (step : CodecStep σ) (k : Nat) :
    ∀ (fuel : Nat) (s : ZState σ) (total : Nat) (acc : List Nat),
      (fillLoop step k fuel s total acc).1.totalNumBytesRead = s.totalNumBytesRead ∧
      (fillLoop step k fuel s total acc).1.decompressedCapacity = s.decompressedCapacity ∧
      (fillLoop step k fuel s total acc).1.compressedCapacity = s.compressedCapacity := by
  intro fuel
  induction fuel with
  | zero => intro s total acc; simp [fillLoop]
  | succ n ih =>
    intro s total acc
    simp only [fillLoop]
    split
    · split
      · exact ih _ _ _
      · rcases hd : decompressNextBlock step s with ⟨ok, s'⟩
        have hc := decompressNextBlock_const step s
        rw [hd] at hc
        cases ok
        · simp only [hd]
          exact ⟨hc.2.2, hc.1, hc.2.1⟩
        · simp only [hd]
          exact ⟨(ih s' total acc).1.trans hc.2.2, (ih s' total acc).2.1.trans hc.1,
            (ih s' total acc).2.2.trans hc.2.1⟩
    · exact ⟨rfl, rfl, rfl⟩

theorem fillLoop_total (step : CodecStep σ) (k : Nat) :
    ∀ (fuel : Nat) (s : ZState σ) (total : Nat) (acc : List Nat),
      total ≤ (fillLoop step k fuel s total acc).2.1 ∧
      (fillLoop step k fuel s total acc).2.1 ≤ max total k := by
  intro fuel
  induction fuel with
  | zero => intro s total acc; simp [fillLoop]
  | succ n ih =>
    intro s total acc
    simp only [fillLoop]
    split
    · split
      · rename_i h h2
        have := ih { s with decompressedOffset := s.decompressedOffset + min (s.decompressedSize - s.decompressedOffset) (k - total) } (total + min (s.decompressedSize - s.decompressedOffset) (k - total)) (acc ++ (s.decompressedBuffer.drop s.decompressedOffset).take (min (s.decompressedSize - s.decompressedOffset) (k - total)))
        omega
      · rcases hd : decompressNextBlock step s with ⟨ok, s'⟩
        cases ok
        · simp [hd]
        · simp only [hd]
          have := ih s' total acc
          omega
    · simp

theorem fillLoop_wf_len (step : CodecStep σ) (k : Nat) :
    ∀ (fuel : Nat) (s : ZState σ) (total : Nat) (acc : List Nat),
      ZWF s → acc.length = total →
      ZWF (fillLoop step k fuel s total acc).1 ∧
      (fillLoop step k fuel s total acc).2.2.length = (fillLoop step k fuel s total acc).2.1 := by
  intro fuel
  induction fuel with
  | zero => intro s total acc hw hl; simpa [fillLoop] using ⟨hw, hl⟩
  | succ n ih =>
    intro s total acc hw hl
    simp only [fillLoop]
    split
    · split
      · rename_i h h2
        refine ih _ _ _ hw ?_
        have hco : ((s.decompressedBuffer.drop s.decompressedOffset).take
            (min (s.decompressedSize - s.decompressedOffset) (k - total))).length =
            min (s.decompressedSize - s.decompressedOffset) (k - total) := by
          rw [List.length_take, List.length_drop]
          have : s.decompressedBuffer.length = s.decompressedSize := hw
          omega
        simp [hco, hl]
      · rcases hd : decompressNextBlock step s with ⟨ok, s'⟩
        have hw' : ZWF s' := by
          have := decompressNextBlock_wf step s hw
          rwa [hd] at this
        cases ok
        · simpa [hd] using ⟨hw', hl⟩
        · simp only [hd]
          exact ih s' total acc hw' hl
    · exact ⟨hw, hl⟩

theorem fillLoop_inv (step : CodecStep σ) (k : Nat) :
    ∀ (fuel : Nat) (s : ZState σ) (total : Nat) (acc : List Nat),
      ZInv s → ZInv (fillLoop step k fuel s total acc).1 := by
  intro fuel
  induction fuel with
  | zero => intro s total acc hi; simpa [fillLoop] using hi
  | succ n ih =>
    intro s total acc hi
    simp only [fillLoop]
    split
    · split
      · rename_i h h2
        refine ih _ _ _ ?_
        obtain ⟨hi1, hi2⟩ := hi
        exact ⟨by simp; omega, hi2⟩
      · rcases hd : decompressNextBlock step s with ⟨ok, s'⟩
        have hi' : ZInv s' := by
          have := (decompressNextBlock_inv step s hi).1
          rwa [hd] at this
        cases ok
        · simpa [hd] using hi'
        · simp only [hd]
          exact ih s' total acc hi'
    · exact hi

theorem fillLoop_exit (step : CodecStep σ) (k : Nat) :
    ∀ (fuel : Nat) (s : ZState σ) (total : Nat) (acc : List Nat),
      2 * (k - total) + (if s.decompressedOffset < s.decompressedSize then 1 else 2) ≤ fuel →
      (fillLoop step k fuel s total acc).2.1 < k →
      ∃ s₀ : ZState σ, s₀.decompressedCapacity = s.decompressedCapacity ∧
        ¬ s₀.decompressedOffset < s₀.decompressedSize ∧
        decompressNextBlock step s₀ = (false, (fillLoop step k fuel s total acc).1) := by
  intro fuel
  induction fuel with
  | zero =>
    intro s total acc hf hlt
    exact absurd hf (by split <;> omega)
  | succ n ih =>
    intro s total acc hf hlt
    by_cases h : total < k
    · by_cases h2 : s.decompressedOffset < s.decompressedSize
      · simp only [fillLoop, if_pos h, if_pos h2] at hlt ⊢
        rw [if_pos h2] at hf
        refine ih _ _ _ ?_ hlt
        split <;> omega
      · rw [if_neg h2] at hf
        rcases hd : decompressNextBlock step s with ⟨ok, s'⟩
        cases ok
        · simp only [fillLoop, if_pos h, if_neg h2, hd] at hlt ⊢
          exact ⟨s, rfl, h2, hd⟩
        · simp only [fillLoop, if_pos h, if_neg h2, hd] at hlt ⊢
          have hcur := decompressNextBlock_true_cursor step s s' hd
          have hcap := decompressNextBlock_const step s
          rw [hd] at hcap
          obtain ⟨s₀, hc1, hc2, hc3⟩ :=
            ih s' total acc (by rw [if_pos (by omega)]; omega) hlt
          exact ⟨s₀, hc1.trans hcap.1, hc2, hc3⟩
    · simp only [fillLoop, if_neg h] at hlt
      omega

/-! Helper lemmas about `fillTupleBufferZstd`. -/

theorem fillTupleBufferZstd_state (step : CodecStep σ) (s : ZState σ) (k : Nat) :
    (fillTupleBufferZstd step s k).2 =
      { (fillLoop step k (2 * k + 2) s 0 []).1 with
        totalNumBytesRead := (fillLoop step k (2 * k + 2) s 0 []).1.totalNumBytesRead +
          (fillLoop step k (2 * k + 2) s 0 []).2.1 } := by
  simp only [fillTupleBufferZstd]
  split <;> rfl

theorem fillTupleBufferZstd_result (step : CodecStep σ) (s : ZState σ) (k : Nat) :
    (fillTupleBufferZstd step s k).1 =
      if (fillLoop step k (2 * k + 2) s 0 []).2.1 = 0 then FillResult.eos
      else FillResult.bytes (fillLoop step k (2 * k + 2) s 0 []).2.2 := by
  simp only [fillTupleBufferZstd]
  split <;> rfl

theorem fillTupleBufferZstd_eos_total (step : CodecStep σ) (s : ZState σ) (k : Nat)
    (s₁ : ZState σ) (h : fillTupleBufferZstd step s k = (FillResult.eos, s₁)) :
    (fillLoop step k (2 * k + 2) s 0 []).2.1 = 0 ∧
    s₁ = (fillLoop step k (2 * k + 2) s 0 []).1 ∧
    s₁.totalNumBytesRead = s.totalNumBytesRead := by
  have h1 : (fillTupleBufferZstd step s k).1 = FillResult.eos := by rw [h]
  have h2 : (fillTupleBufferZstd step s k).2 = s₁ := by rw [h]
  have hres := fillTupleBufferZstd_result step s k
  rw [h1] at hres
  have h0 : (fillLoop step k (2 * k + 2) s 0 []).2.1 = 0 := by
    by_contra hc
    rw [if_neg hc] at hres
    exact FillResult.noConfusion hres
  have hst := fillTupleBufferZstd_state step s k
  rw [h2, h0] at hst
  have hcon := fillLoop_const step k (2 * k + 2) s 0 []
  have hs1 : s₁ = (fillLoop step k (2 * k + 2) s 0 []).1 := by
    simpa using hst
  refine ⟨h0, hs1, ?_⟩
  rw [hs1]
  exact hcon.1

theorem fillTupleBufferZstd_bytes_counter (step : CodecStep σ) (s : ZState σ) (k : Nat)
    (d : List Nat) (s₁ : ZState σ) (hw : ZWF s)
    (h : fillTupleBufferZstd step s k = (FillResult.bytes d, s₁)) :
    s₁.totalNumBytesRead = s.totalNumBytesRead + d.length ∧ 0 < d.length := by
  have h1 : (fillTupleBufferZstd step s k).1 = FillResult.bytes d := by rw [h]
  have h2 : (fillTupleBufferZstd step s k).2 = s₁ := by rw [h]
  have hres := fillTupleBufferZstd_result step s k
  rw [h1] at hres
  by_cases h0 : (fillLoop step k (2 * k + 2) s 0 []).2.1 = 0
  · rw [if_pos h0] at hres
    exact absurd hres (by simp)
  · rw [if_neg h0] at hres
    have hd : d = (fillLoop step k (2 * k + 2) s 0 []).2.2 := FillResult.bytes.inj hres
    have hst := fillTupleBufferZstd_state step s k
    rw [h2] at hst
    have hcon := fillLoop_const step k (2 * k + 2) s 0 []
    have hlen := (fillLoop_wf_len step k (2 * k + 2) s 0 [] hw rfl).2
    have hctr : s₁.totalNumBytesRead = (fillLoop step k (2 * k + 2) s 0 []).1.totalNumBytesRead +
        (fillLoop step k (2 * k + 2) s 0 []).2.1 := by rw [hst]
    constructor
    · rw [hctr, hcon.1, hd, hlen]
    · rw [hd, hlen]
      omega

theorem fillTupleBufferZstd_bytes_total (step : CodecStep σ) (s : ZState σ) (k : Nat)
    (d : List Nat) (s₁ : ZState σ) (hw : ZWF s)
    (h : fillTupleBufferZstd step s k = (FillResult.bytes d, s₁)) :
    (fillLoop step k (2 * k + 2) s 0 []).2.1 = d.length := by
  have h1 : (fillTupleBufferZstd step s k).1 = FillResult.bytes d := by rw [h]
  have hres := fillTupleBufferZstd_result step s k
  rw [h1] at hres
  by_cases h0 : (fillLoop step k (2 * k + 2) s 0 []).2.1 = 0
  · rw [if_pos h0] at hres
    exact absurd hres (by simp)
  · rw [if_neg h0] at hres
    have hd : d = (fillLoop step k (2 * k + 2) s 0 []).2.2 := FillResult.bytes.inj hres
    have hlen := (fillLoop_wf_len step k (2 * k + 2) s 0 [] hw rfl).2
    rw [hd, hlen]

theorem fillTupleBufferZstd_mono (step : CodecStep σ) (s : ZState σ) (k : Nat) :
    s.totalNumBytesRead ≤ (fillTupleBufferZstd step s k).2.totalNumBytesRead := by
  rw [fillTupleBufferZstd_state]
  have hcon := fillLoop_const step k (2 * k + 2) s 0 []
  show s.totalNumBytesRead ≤ (fillLoop step k (2 * k + 2) s 0 []).1.totalNumBytesRead +
    (fillLoop step k (2 * k + 2) s 0 []).2.1
  omega

theorem fillTupleBufferZstd_wf (step : CodecStep σ) (s : ZState σ) (k : Nat) (hw : ZWF s) :
    ZWF (fillTupleBufferZstd step s k).2 := by
  rw [fillTupleBufferZstd_state]
  exact (fillLoop_wf_len step k (2 * k + 2) s 0 [] hw rfl).1

theorem fillTupleBufferZstd_inv (step : CodecStep σ) (s : ZState σ) (k : Nat) (hi : ZInv s) :
    ZInv (fillTupleBufferZstd step s k).2 := by
  rw [fillTupleBufferZstd_state]
  exact fillLoop_inv step k (2 * k + 2) s 0 [] hi

theorem fillTupleBufferZstd_stable (step : CodecStep σ) (s : ZState σ)
    (hE : s.endOfCompressedStream = true) (hL : ¬ s.decompressedOffset < s.decompressedSize)
    (k : Nat) : fillTupleBufferZstd step s k = (FillResult.eos, s) := by
  have hd := decompressNextBlock_exhausted step s hE
  have hloop : fillLoop step k (2 * k + 2) s 0 [] = (s, 0, []) := by
    show fillLoop step k (2 * k + 1 + 1) s 0 [] = (s, 0, [])
    by_cases h : 0 < k
    · simp only [fillLoop, if_pos h, if_neg hL, hd]
    · simp only [fillLoop, if_neg h]
  simp only [fillTupleBufferZstd, hloop]
  rfl

theorem fillTupleBufferZstd_short_exhausted (step : CodecStep σ) (hp : Productive step)
    (s : ZState σ) (k : Nat) (hcap : 1 ≤ s.decompressedCapacity)
    (hshort : (fillLoop step k (2 * k + 2) s 0 []).2.1 < k) :
    (fillTupleBufferZstd step s k).2.endOfCompressedStream = true := by
  obtain ⟨s₀, hc1, hc2, hc3⟩ := fillLoop_exit step k (2 * k + 2) s 0 []
    (by split <;> omega) hshort
  have hend : (fillLoop step k (2 * k + 2) s 0 []).1.endOfCompressedStream = true := by
    rcases decompressNextBlock_false_cases step s₀ _ hc3 with h | h | h
    · rw [h.2]
      exact h.1
    · rw [h.2.2]
    · exact absurd (decompressNextBlock_productive_true step hp s₀ (by omega) h.1 h.2.1)
        (by rw [hc3]; simp)
  rw [fillTupleBufferZstd_state]
  exact hend

theorem fillTupleBufferZstd_eos_no_leftover (step : CodecStep σ) (s : ZState σ) (k : Nat)
    (s₁ : ZState σ) (hk : 1 ≤ k) (h : fillTupleBufferZstd step s k = (FillResult.eos, s₁)) :
    ¬ s₁.decompressedOffset < s₁.decompressedSize := by
  obtain ⟨h0, hs1, _⟩ := fillTupleBufferZstd_eos_total step s k s₁ h
  obtain ⟨s₀, hc1, hc2, hc3⟩ := fillLoop_exit step k (2 * k + 2) s 0 []
    (by split <;> omega) (by omega)
  rcases decompressNextBlock_false_cases step s₀ _ hc3 with hc | hc | hc
  · rw [hs1, hc.2]
    exact hc2
  · rw [hs1, hc.2.2]
    exact hc2
  · obtain ⟨_, _, hz, _, _⟩ := hc
    rw [hs1]
    omega

/-! Helper lemmas about the uncompressed branch and the driver loops. -/

theorem fillTupleBufferUncompressed_empty (s : UState) (hs : s.stream = []) (k : Nat) :
    fillTupleBufferUncompressed s k = (FillResult.eos, ⟨[], s.totalNumBytesRead⟩) := by
  simp [fillTupleBufferUncompressed, hs]

theorem fillTupleBufferUncompressed_nonempty (s : UState) (k : Nat) (hk : 1 ≤ k)
    (hs : s.stream ≠ []) :
    fillTupleBufferUncompressed s k =
      (FillResult.bytes (s.stream.take k),
        ⟨s.stream.drop k, s.totalNumBytesRead + (s.stream.take k).length⟩) := by
  have hne : (s.stream.take k).length ≠ 0 := by
    rw [List.length_take]
    have := List.length_pos.mpr hs
    omega
  simp only [fillTupleBufferUncompressed, if_neg hne]

theorem fillTupleBufferUncompressed_zero (s : UState) :
    fillTupleBufferUncompressed s 0 = (FillResult.eos, s) := by
  simp [fillTupleBufferUncompressed]

theorem fillTupleBufferUncompressed_eos (s : UState) (k : Nat) (s₁ : UState) (hk : 1 ≤ k)
    (h : fillTupleBufferUncompressed s k = (FillResult.eos, s₁)) :
    s.stream = [] ∧ s₁ = ⟨[], s.totalNumBytesRead⟩ := by
  by_cases hs : s.stream = []
  · have hfill := fillTupleBufferUncompressed_empty s hs k
    rw [h] at hfill
    simp only [Prod.mk.injEq] at hfill
    exact ⟨hs, hfill.2⟩
  · have hfill := fillTupleBufferUncompressed_nonempty s k hk hs
    rw [h] at hfill
    simp at hfill

theorem runU_spec (k : Nat) (hk : 1 ≤ k) :
    ∀ (fuel : Nat) (s : UState), s.stream.length < fuel →
      ∃ ds : List (List Nat),
        (runU k fuel s).1 = ds.map FillResult.bytes ++ [FillResult.eos] ∧
        ds.flatten = s.stream ∧ (∀ d ∈ ds, d ≠ []) ∧
        (runU k fuel s).2.stream = [] ∧
        (runU k fuel s).2.totalNumBytesRead = s.totalNumBytesRead + s.stream.length := by
  intro fuel
  induction fuel with
  | zero => intro s h; omega
  | succ n ih =>
    intro s h
    by_cases hs : s.stream = []
    · have hfill := fillTupleBufferUncompressed_empty s hs k
      refine ⟨[], ?_, ?_, ?_, ?_, ?_⟩ <;> simp [runU, hfill, hs]
    · have hfill := fillTupleBufferUncompressed_nonempty s k hk hs
      have hlen : (UState.mk (s.stream.drop k)
          (s.totalNumBytesRead + (s.stream.take k).length)).stream.length < n := by
        simp only [List.length_drop]
        have hpos := List.length_pos.mpr hs
        omega
      obtain ⟨ds, hd1, hd2, hd3, hd4, hd5⟩ := ih _ hlen
      refine ⟨s.stream.take k :: ds, ?_, ?_, ?_, ?_, ?_⟩
      · simp only [runU, hfill, List.map_cons, List.cons_append]
        rw [hd1]
      · simp only [List.flatten_cons]
        rw [hd2]
        exact List.take_append_drop k s.stream
      · intro d hd
        rcases List.mem_cons.mp hd with h1 | h1
        · subst h1
          intro hct
          have hct0 : (s.stream.take k).length = 0 := by rw [hct]; rfl
          rw [List.length_take] at hct0
          have := List.length_pos.mpr hs
          omega
        · exact hd3 d h1
      · simp only [runU, hfill]
        exact hd4
      · simp only [runU, hfill]
        rw [hd5]
        simp only [List.length_drop, List.length_take]
        omega

theorem runZ_counter (step : CodecStep σ) (k : Nat) :
    ∀ (fuel : Nat) (s : ZState σ), ZWF s →
      (runZ step k fuel s).2.totalNumBytesRead =
        s.totalNumBytesRead + (extractBytes (runZ step k fuel s).1).length := by
  intro fuel
  induction fuel with
  | zero => intro s hw; simp [runZ, extractBytes]
  | succ n ih =>
    intro s hw
    rcases hf : fillTupleBufferZstd step s k with ⟨res, s'⟩
    cases res with
    | eos =>
      have hct := fillTupleBufferZstd_eos_total step s k s' hf
      simp [runZ, hf, extractBytes, hct.2.2]
    | bytes d =>
      have hc := fillTupleBufferZstd_bytes_counter step s k d s' hw hf
      have hw' : ZWF s' := by
        have h2 : (fillTupleBufferZstd step s k).2 = s' := by rw [hf]
        rw [← h2]
        exact fillTupleBufferZstd_wf step s k hw
      have hrec := ih s' hw'
      simp only [runZ, hf, extractBytes, List.length_append]
      rw [hrec, hc.1]
      omega

/-! Claim theorems. -/

/-- Claim C1 (confirmed): uncompressed round trip — for any file content and any
destination capacity k ≥ 1, repeatedly calling the uncompressed fill until the
first EndOfStream yields a sequence of nonempty byte chunks whose concatenation
is exactly the content, followed by exactly one terminal EndOfStream; concretely,
for the 10-byte content "HelloWorld" with capacity 4 the results are Bytes(4)
"Hell", Bytes(4) "oWor", Bytes(2) "ld", EndOfStream, and the byte counter ends
at 10. -/
theorem claim_C1_uncompressed_roundtrip :
    (∀ (content : List Nat) (k : Nat), 1 ≤ k →
      ∃ ds : List (List Nat),
        (runU k (content.length + 1) ⟨content, 0⟩).1 =
          ds.map FillResult.bytes ++ [FillResult.eos] ∧
        ds.flatten = content ∧ (∀ d ∈ ds, d ≠ [])) ∧
    runU 4 11 ⟨helloWorldBytes, 0⟩ =
      ([FillResult.bytes [72, 101, 108, 108], FillResult.bytes [111, 87, 111, 114],
        FillResult.bytes [108, 100], FillResult.eos], ⟨[], 10⟩) := by
  constructor
  · intro content k hk
    obtain ⟨ds, h1, h2, h3, _, _⟩ :=
      runU_spec k hk (content.length + 1) ⟨content, 0⟩ (Nat.lt_succ_self _)
    exact ⟨ds, h1, h2, h3⟩
  · rfl

/-- Witness for C1: the round-trip property applied to the 5-byte content
[10, 20, 30, 40, 50] with capacity 3. -/
theorem claim_C1_uncompressed_roundtrip_witness :
    ∃ ds : List (List Nat),
      (runU 3 6 ⟨[10, 20, 30, 40, 50], 0⟩).1 = ds.map FillResult.bytes ++ [FillResult.eos] ∧
      ds.flatten = [10, 20, 30, 40, 50] ∧ (∀ d ∈ ds, d ≠ []) :=
  claim_C1_uncompressed_roundtrip.1 [10, 20, 30, 40, 50] 3 (by decide)

/-- Claim C4 (confirmed): no empty non-terminal result — in both modes every fill
call returns either EndOfStream or Bytes carrying at least one byte (never
Bytes(0)); writing zero bytes means the EndOfStream result. -/
theorem claim_C4_no_empty_result :
    (∀ (s : UState) (k : Nat) (res : FillResult) (s₁ : UState),
      fillTupleBufferUncompressed s k = (res, s₁) →
      res = FillResult.eos ∨ ∃ d, res = FillResult.bytes d ∧ 0 < d.length) ∧
    (∀ (σ : Type) (step : CodecStep σ) (s : ZState σ) (k : Nat) (res : FillResult)
      (s₁ : ZState σ), ZWF s → fillTupleBufferZstd step s k = (res, s₁) →
      res = FillResult.eos ∨ ∃ d, res = FillResult.bytes d ∧ 0 < d.length) := by
  constructor
  · intro s k res s₁ h
    cases res with
    | eos => exact Or.inl rfl
    | bytes d =>
      refine Or.inr ⟨d, rfl, ?_⟩
      by_cases h0 : (s.stream.take k).length = 0
      · simp only [fillTupleBufferUncompressed, if_pos h0] at h
        simp at h
      · simp only [fillTupleBufferUncompressed, if_neg h0, Prod.mk.injEq,
          FillResult.bytes.injEq] at h
        rw [← h.1]
        omega
  · intro σ step s k res s₁ hw h
    cases res with
    | eos => exact Or.inl rfl
    | bytes d =>
      exact Or.inr ⟨d, rfl, (fillTupleBufferZstd_bytes_counter step s k d s₁ hw h).2⟩

/-- Witness for C4: both parts applied at concrete states — an uncompressed fill
that returns one byte, and a zstd fill at end of file that returns EndOfStream. -/
theorem claim_C4_no_empty_result_witness :
    (FillResult.bytes [7] = FillResult.eos ∨
      ∃ d, FillResult.bytes [7] = FillResult.bytes d ∧ 0 < d.length) ∧
    (FillResult.eos = FillResult.eos ∨
      ∃ d, FillResult.eos = FillResult.bytes d ∧ 0 < d.length) :=
  ⟨claim_C4_no_empty_result.1 ⟨[7], 0⟩ 1 (FillResult.bytes [7]) ⟨[], 1⟩ rfl,
    claim_C4_no_empty_result.2 Unit idCodec ⟨[], 1, 4, [], 0, 0, false, (), 0⟩ 1
      FillResult.eos ⟨[], 1, 4, [], 0, 0, true, (), 0⟩ rfl rfl⟩

/-- Claim C7 (confirmed): the decompressNextBlock contract — when the stream is
already exhausted it is an idempotent no-op returning no data; a zero-byte read
sets streamExhausted and returns no data; otherwise it decodes from a reset
write cursor, resets the read cursor to 0, and reports data available exactly
when the write cursor is positive. -/
theorem claim_C7_decodeNextBlock_contract :
    (∀ (σ : Type) (step : CodecStep σ) (s : ZState σ), s.endOfCompressedStream = true →
      decompressNextBlock step s = (false, s)) ∧
    (∀ (σ : Type) (step : CodecStep σ) (s : ZState σ), s.endOfCompressedStream = false →
      s.stream.take s.compressedCapacity = [] →
      decompressNextBlock step s = (false, { s with endOfCompressedStream := true })) ∧
    (∀ (σ : Type) (step : CodecStep σ) (s : ZState σ), s.endOfCompressedStream = false →
      s.stream.take s.compressedCapacity ≠ [] →
      (decompressNextBlock step s).2.decompressedOffset = 0 ∧
      ((decompressNextBlock step s).1 = true ↔
        0 < (decompressNextBlock step s).2.decompressedSize)) := by
  refine ⟨fun σ step s h => decompressNextBlock_exhausted step s h,
    fun σ step s h h2 => decompressNextBlock_zero_read step s h h2, ?_⟩
  intro σ step s h h2
  rcases hd : decompressNextBlock step s with ⟨ok, s'⟩
  cases ok
  · rcases decompressNextBlock_false_cases step s s' hd with hc | hc | hc
    · exact absurd hc.1 (by simp [h])
    · exact absurd hc.2.1 h2
    · obtain ⟨_, _, hz, ho, _⟩ := hc
      simp [ho, hz]
  · have hcur := decompressNextBlock_true_cursor step s s' hd
    simp [hcur.1, hcur.2]

/-- Witness for C7: the three contract branches applied at concrete states. -/
theorem claim_C7_decodeNextBlock_contract_witness :
    decompressNextBlock idCodec ⟨[9], 1, 4, [], 0, 0, true, (), 0⟩ =
      (false, ⟨[9], 1, 4, [], 0, 0, true, (), 0⟩) ∧
    decompressNextBlock idCodec ⟨[], 1, 4, [], 0, 0, false, (), 0⟩ =
      (false, ⟨[], 1, 4, [], 0, 0, true, (), 0⟩) ∧
    ((decompressNextBlock idCodec ⟨[5], 1, 4, [], 0, 0, false, (), 0⟩).2.decompressedOffset = 0 ∧
      ((decompressNextBlock idCodec ⟨[5], 1, 4, [], 0, 0, false, (), 0⟩).1 = true ↔
        0 < (decompressNextBlock idCodec ⟨[5], 1, 4, [], 0, 0, false, (), 0⟩).2.decompressedSize)) :=
  ⟨claim_C7_decodeNextBlock_contract.1 Unit idCodec ⟨[9], 1, 4, [], 0, 0, true, (), 0⟩ rfl,
    claim_C7_decodeNextBlock_contract.2.1 Unit idCodec ⟨[], 1, 4, [], 0, 0, false, (), 0⟩ rfl rfl,
    claim_C7_decodeNextBlock_contract.2.2 Unit idCodec ⟨[5], 1, 4, [], 0, 0, false, (), 0⟩ rfl
      (by decide)⟩

/-- Claim C8 (confirmed): the Decompression State cursor invariant
0 ≤ readCursor ≤ writeCursor ≤ capacity(outputStaging) holds after open and is
preserved by every decompressNextBlock and fillTupleBuffer call, and the
decompressed output written by one decompressNextBlock call never exceeds the
output staging capacity. -/
theorem claim_C8_cursor_invariant :
    (∀ (σ : Type) (content : List Nat) (inCap outCap : Nat) (c0 : σ),
      ZInv (openZstd content inCap outCap c0)) ∧
    (∀ (σ : Type) (step : CodecStep σ) (s : ZState σ), ZInv s →
      ZInv (decompressNextBlock step s).2 ∧
      (decompressNextBlock step s).2.decompressedSize ≤ s.decompressedCapacity) ∧
    (∀ (σ : Type) (step : CodecStep σ) (s : ZState σ) (k : Nat), ZInv s →
      ZInv (fillTupleBufferZstd step s k).2) :=
  ⟨fun _ _ _ _ _ => ⟨Nat.le_refl 0, Nat.zero_le _⟩,
    fun _ step s h => decompressNextBlock_inv step s h,
    fun _ step s k h => fillTupleBufferZstd_inv step s k h⟩

/-- Witness for C8: invariant preservation applied at a concrete decode and a
concrete fill. -/
theorem claim_C8_cursor_invariant_witness :
    (ZInv (decompressNextBlock idCodec ⟨[5], 1, 4, [], 0, 0, false, (), 0⟩).2 ∧
      (decompressNextBlock idCodec ⟨[5], 1, 4, [], 0, 0, false, (), 0⟩).2.decompressedSize ≤ 4) ∧
    ZInv (fillTupleBufferZstd idCodec ⟨[5], 1, 4, [], 0, 0, false, (), 0⟩ 2).2 :=
  ⟨claim_C8_cursor_invariant.2.1 Unit idCodec ⟨[5], 1, 4, [], 0, 0, false, (), 0⟩
      ⟨by decide, by decide⟩,
    claim_C8_cursor_invariant.2.2 Unit idCodec ⟨[5], 1, 4, [], 0, 0, false, (), 0⟩ 2
      ⟨by decide, by decide⟩⟩

/-- Claim C9 (confirmed): byte-counter correctness — every fill that returns
Bytes(n) adds exactly n to totalNumBytesRead, EndOfStream leaves it unchanged,
it never decreases, after fully draining an uncompressed source it equals the
raw content length, and in zstd mode it always equals the total length of the
decompressed bytes delivered so far. -/
theorem claim_C9_byte_counter :
    (∀ (s : UState) (k : Nat) (d : List Nat) (s₁ : UState),
      fillTupleBufferUncompressed s k = (FillResult.bytes d, s₁) →
      s₁.totalNumBytesRead = s.totalNumBytesRead + d.length) ∧
    (∀ (s : UState) (k : Nat) (s₁ : UState),
      fillTupleBufferUncompressed s k = (FillResult.eos, s₁) →
      s₁.totalNumBytesRead = s.totalNumBytesRead) ∧
    (∀ (σ : Type) (step : CodecStep σ) (s : ZState σ) (k : Nat) (d : List Nat) (s₁ : ZState σ),
      ZWF s → fillTupleBufferZstd step s k = (FillResult.bytes d, s₁) →
      s₁.totalNumBytesRead = s.totalNumBytesRead + d.length) ∧
    (∀ (σ : Type) (step : CodecStep σ) (s : ZState σ) (k : Nat) (s₁ : ZState σ),
      fillTupleBufferZstd step s k = (FillResult.eos, s₁) →
      s₁.totalNumBytesRead = s.totalNumBytesRead) ∧
    (∀ (s : UState) (k : Nat),
      s.totalNumBytesRead ≤ (fillTupleBufferUncompressed s k).2.totalNumBytesRead) ∧
    (∀ (σ : Type) (step : CodecStep σ) (s : ZState σ) (k : Nat),
      s.totalNumBytesRead ≤ (fillTupleBufferZstd step s k).2.totalNumBytesRead) ∧
    (∀ (content : List Nat) (k : Nat), 1 ≤ k →
      (runU k (content.length + 1) ⟨content, 0⟩).2.totalNumBytesRead = content.length) ∧
    (∀ (σ : Type) (step : CodecStep σ) (k fuel : Nat) (s : ZState σ), ZWF s →
      (runZ step k fuel s).2.totalNumBytesRead =
        s.totalNumBytesRead + (extractBytes (runZ step k fuel s).1).length) := by
  refine ⟨?_, ?_, ?_, ?_, ?_, ?_, ?_, ?_⟩
  · intro s k d s₁ h
    by_cases h0 : (s.stream.take k).length = 0
    · simp only [fillTupleBufferUncompressed, if_pos h0] at h
      simp at h
    · simp only [fillTupleBufferUncompressed, if_neg h0, Prod.mk.injEq,
        FillResult.bytes.injEq] at h
      obtain ⟨hd, hs⟩ := h
      subst hd
      subst hs
      rfl
  · intro s k s₁ h
    by_cases h0 : (s.stream.take k).length = 0
    · simp only [fillTupleBufferUncompressed, if_pos h0, Prod.mk.injEq] at h
      obtain ⟨_, hs⟩ := h
      subst hs
      show s.totalNumBytesRead + (s.stream.take k).length = s.totalNumBytesRead
      omega
    · simp only [fillTupleBufferUncompressed, if_neg h0] at h
      simp at h
  · intro σ step s k d s₁ hw h
    exact (fillTupleBufferZstd_bytes_counter step s k d s₁ hw h).1
  · intro σ step s k s₁ h
    exact (fillTupleBufferZstd_eos_total step s k s₁ h).2.2
  · intro s k
    simp only [fillTupleBufferUncompressed]
    split <;> exact Nat.le_add_right _ _
  · intro σ step s k
    exact fillTupleBufferZstd_mono step s k
  · intro content k hk
    obtain ⟨_, _, _, _, _, h5⟩ :=
      runU_spec k hk (content.length + 1) ⟨content, 0⟩ (Nat.lt_succ_self _)
    simpa using h5
  · intro σ step k fuel s hw
    exact runZ_counter step k fuel s hw

/-- Witness for C9: the per-call increment at a concrete one-byte uncompressed
fill, and the drained-source total for a concrete two-byte content. -/
theorem claim_C9_byte_counter_witness :
    (UState.mk [] 1).totalNumBytesRead = (UState.mk [7] 0).totalNumBytesRead + [7].length ∧
    (runU 2 3 ⟨[1, 2], 0⟩).2.totalNumBytesRead = 2 :=
  ⟨claim_C9_byte_counter.1 ⟨[7], 0⟩ 1 [7] ⟨[], 1⟩ rfl,
    claim_C9_byte_counter.2.2.2.2.2.2.1 [1, 2] 2 (by decide)⟩

/-- Claim C10 (confirmed): a fill with a zero-capacity destination returns
EndOfStream and leaves the source state completely unchanged, in both modes —
even when the stream still has unread data, as the concrete one-byte instance
shows, so such an EndOfStream does not mean the session is exhausted. -/
theorem claim_C10_zero_capacity :
    (∀ s : UState, fillTupleBufferUncompressed s 0 = (FillResult.eos, s)) ∧
    (∀ (σ : Type) (step : CodecStep σ) (s : ZState σ),
      fillTupleBufferZstd step s 0 = (FillResult.eos, s)) ∧
    fillTupleBufferUncompressed ⟨[1], 0⟩ 0 = (FillResult.eos, ⟨[1], 0⟩) ∧
    (fillTupleBufferUncompressed ⟨[1], 0⟩ 1).1 = FillResult.bytes [1] :=
  ⟨fillTupleBufferUncompressed_zero, fun _ _ _ => rfl, rfl, rfl⟩

/-- Counterexample for C2: with a codec step that consumes a chunk but emits no
output (as a zstd skippable frame does), a compressed-mode fill returns
EndOfStream while the stream still holds the unread byte 7 and
endOfCompressedStream is still false — the stream was not exhausted during the
call. -/
theorem claim_C2_counterexample :
    (fillTupleBufferZstd skipCodec ⟨[0, 7], 1, 4, [], 0, 0, false, (), 0⟩ 1).1 =
      FillResult.eos ∧
    (fillTupleBufferZstd skipCodec ⟨[0, 7], 1, 4, [], 0, 0, false, (), 0⟩ 1).2.stream = [7] ∧
    (fillTupleBufferZstd skipCodec
      ⟨[0, 7], 1, 4, [], 0, 0, false, (), 0⟩ 1).2.endOfCompressedStream = false :=
  ⟨rfl, rfl, rfl⟩

/-- Claim C2 (corrected): maximal fill holds for productive codecs — if every
codec step on a nonempty chunk with at least one byte of output space emits at
least one byte, and the output staging capacity is positive, then a
compressed-mode fill that returns Bytes(n) with n < capacity, or EndOfStream,
leaves endOfCompressedStream = true; a codec chunk decoding to zero output bytes
breaks the property, as the counterexample shows. -/
theorem claim_C2_maximal_fill (σ : Type) (step : CodecStep σ) (s : ZState σ) (k : Nat)
    (res : FillResult) (s₁ : ZState σ) (hp : Productive step)
    (hcap : 1 ≤ s.decompressedCapacity) (hk : 1 ≤ k) (hw : ZWF s)
    (h : fillTupleBufferZstd step s k = (res, s₁))
    (hshort : res = FillResult.eos ∨ ∃ d, res = FillResult.bytes d ∧ d.length < k) :
    s₁.endOfCompressedStream = true := by
  have hx : (fillLoop step k (2 * k + 2) s 0 []).2.1 < k := by
    rcases hshort with he | ⟨d, hb, hd⟩
    · subst he
      have := (fillTupleBufferZstd_eos_total step s k s₁ h).1
      omega
    · subst hb
      have := fillTupleBufferZstd_bytes_total step s k d s₁ hw h
      omega
  have h2 : (fillTupleBufferZstd step s k).2 = s₁ := by rw [h]
  rw [← h2]
  exact fillTupleBufferZstd_short_exhausted step hp s k hcap hx

/-- Witness for C2: the corrected maximal-fill property applied with the
identity codec to an empty file, where the EndOfStream fill indeed sets
endOfCompressedStream. -/
theorem claim_C2_maximal_fill_witness :
    (ZState.mk [] 1 4 [] 0 0 true () 0).endOfCompressedStream = true :=
  claim_C2_maximal_fill Unit idCodec ⟨[], 1, 4, [], 0, 0, false, (), 0⟩ 1 FillResult.eos
    ⟨[], 1, 4, [], 0, 0, true, (), 0⟩ (fun _ _ _ hne _ => hne) (by decide) (by decide) rfl
    rfl (Or.inl rfl)

/-- Counterexample for C3: an EndOfStream result is not always stable — with a
codec whose first chunk decompresses to zero bytes, a capacity-1 fill returns
EndOfStream and the very next capacity-1 fill on the resulting state returns
Bytes. -/
theorem claim_C3_counterexample :
    (fillTupleBufferZstd flagCodec ⟨[0, 5], 1, 4, [], 0, 0, false, (), 0⟩ 1).1 =
      FillResult.eos ∧
    (fillTupleBufferZstd flagCodec
        (fillTupleBufferZstd flagCodec ⟨[0, 5], 1, 4, [], 0, 0, false, (), 0⟩ 1).2 1).1 =
      FillResult.bytes [5] :=
  ⟨rfl, rfl⟩

/-- Claim C3 (corrected): end-of-stream stability — once a positive-capacity
fill has returned EndOfStream, every subsequent fill returns EndOfStream and
leaves the state (the stream included) unchanged: unconditionally in
uncompressed mode, and in Zstd mode provided endOfCompressedStream was set by
that call (an EndOfStream caused by a chunk decompressing to zero bytes, or one
obtained from a zero-capacity destination, is not stable). -/
theorem claim_C3_eos_stability :
    (∀ (s : UState) (k : Nat) (s₁ : UState), 1 ≤ k →
      fillTupleBufferUncompressed s k = (FillResult.eos, s₁) →
      ∀ k2, fillTupleBufferUncompressed s₁ k2 = (FillResult.eos, s₁)) ∧
    (∀ (σ : Type) (step : CodecStep σ) (s : ZState σ) (k : Nat) (s₁ : ZState σ), 1 ≤ k →
      fillTupleBufferZstd step s k = (FillResult.eos, s₁) →
      s₁.endOfCompressedStream = true →
      ∀ k2, fillTupleBufferZstd step s₁ k2 = (FillResult.eos, s₁)) := by
  constructor
  · intro s k s₁ hk h k2
    obtain ⟨hs, hs1⟩ := fillTupleBufferUncompressed_eos s k s₁ hk h
    subst hs1
    exact fillTupleBufferUncompressed_empty ⟨[], s.totalNumBytesRead⟩ rfl k2
  · intro σ step s k s₁ hk h hE k2
    exact fillTupleBufferZstd_stable step s₁ hE
      (fillTupleBufferZstd_eos_no_leftover step s k s₁ hk h) k2

/-- Witness for C3: both corrected stability parts applied at concrete states in
which a capacity-1 fill has just returned EndOfStream. -/
theorem claim_C3_eos_stability_witness :
    fillTupleBufferUncompressed ⟨[], 3⟩ 5 = (FillResult.eos, ⟨[], 3⟩) ∧
    fillTupleBufferZstd idCodec ⟨[], 1, 4, [], 0, 0, true, (), 0⟩ 2 =
      (FillResult.eos, ⟨[], 1, 4, [], 0, 0, true, (), 0⟩) :=
  ⟨claim_C3_eos_stability.1 ⟨[], 3⟩ 1 ⟨[], 3⟩ (by decide) rfl 5,
    claim_C3_eos_stability.2 Unit idCodec ⟨[], 1, 4, [], 0, 0, false, (), 0⟩ 1
      ⟨[], 1, 4, [], 0, 0, true, (), 0⟩ (by decide) rfl rfl 2⟩

/-- Counterexample for C5: opening with the unsupported compression value "gzip"
on a resolvable file raises the configuration error naming it, but the input
stream that was opened earlier in the same open() call is left open. -/
theorem claim_C5_counterexample :
    (openFileSource "f.csv" "gzip" (some [1]) true "").1 =
      some (SrcError.invalidConfigParameter "Unsupported compression type: gzip") ∧
    (openFileSource "f.csv" "gzip" (some [1]) true "").2.streamOpen = true :=
  ⟨rfl, rfl⟩

/-- Claim C5 (corrected): for every configuration whose compression string is
none of "none", "zstd" and the empty string, open() on a resolvable file fails
with a configuration error naming the unsupported value — but the input stream
opened earlier in the call remains open; it is only released by close(). -/
theorem claim_C5_reject_unsupported (filePath ct : String) (content : List Nat)
    (ctxOk : Bool) (errnoMsg : String) (h1 : ct ≠ "none") (h2 : ct ≠ "zstd") (h3 : ct ≠ "") :
    (openFileSource filePath ct (some content) ctxOk errnoMsg).1 =
      some (SrcError.invalidConfigParameter ("Unsupported compression type: " ++ ct)) ∧
    (openFileSource filePath ct (some content) ctxOk errnoMsg).2.streamOpen = true := by
  simp only [openFileSource]
  rw [if_neg h2, if_pos ⟨h1, h3⟩]
  exact ⟨rfl, rfl⟩

/-- Witness for C5: the corrected rejection property at the spec's concrete
unsupported value "brotli". -/
theorem claim_C5_reject_unsupported_witness :
    (openFileSource "data.csv" "brotli" (some []) true "").1 =
      some (SrcError.invalidConfigParameter ("Unsupported compression type: " ++ "brotli")) ∧
    (openFileSource "data.csv" "brotli" (some []) true "").2.streamOpen = true :=
  claim_C5_reject_unsupported "data.csv" "brotli" [] true "" (by decide) (by decide) (by decide)

/-- Counterexample for C6: when path resolution fails, open() raises
InvalidConfigParameter — a configuration error, not an error of the spec's I/O
class. -/
theorem claim_C6_counterexample :
    (openFileSource "missing.csv" "none" none true "No such file or directory").1 =
      some (SrcError.invalidConfigParameter
        "Could not determine absolute pathname: missing.csv - No such file or directory") ∧
    Option.map SrcError.isIOError
      (openFileSource "missing.csv" "none" none true "No such file or directory").1 =
      some false :=
  ⟨rfl, rfl⟩

/-- Claim C6 (corrected): if resolving the configured path fails or the resolved
path cannot be opened as a binary stream, open() fails with a configuration
error (InvalidConfigParameter) carrying the underlying system error text — not
with a distinct I/O error class — and no stream is left open. -/
theorem claim_C6_open_failure (filePath ct : String) (ctxOk : Bool) (errnoMsg : String) :
    (openFileSource filePath ct none ctxOk errnoMsg).1 =
      some (SrcError.invalidConfigParameter
        ("Could not determine absolute pathname: " ++ filePath ++ " - " ++ errnoMsg)) ∧
    (openFileSource filePath ct none ctxOk errnoMsg).2.streamOpen = false :=
  ⟨rfl, rfl⟩

end FileSourceModel
